import Mathlib

set_option autoImplicit false

/-
Shallow embedding of the go-libcache store (src/cache.go).

Time is passed explicitly: every operation that reads the clock in Go
takes a parameter `now : Int` standing for `time.Now().UnixNano()`;
durations (Go `time.Duration`) are `Int` nanosecond counts.  The Go map
`map[string]Item` is modelled as an association list with the Go map
lookup, assignment and delete operations; a Go map never holds a key
twice, which appears below as `Nodup` hypotheses on the key list where a
proof needs it.  The `sync.RWMutex` is elided: each exported operation is
one atomic state transformer, which is exactly what holding the lock for
the whole call gives.  The payload type `interface\x7b\x7d` is a type
parameter `V`.
-/

/-- Item from src/cache.go: a stored data item, the payload `Object` plus an
absolute expiration instant `Expiration` in nanoseconds since the epoch
(`0` means never expires). -/
structure Item (V : Type) where
  Object : V
  Expiration : Int
  deriving DecidableEq

/-- NoExpiration sentinel from src/cache.go: `time.Duration = -1`, the
never-expire marker. -/
def NoExpiration : Int := -1

/-- DefaultExpiration sentinel from src/cache.go: `time.Duration = 0`, the
use-the-default marker. -/
def DefaultExpiration : Int := 0

/-- Go map indexing `thisCache.items[key]`: the value and, implicitly, the
found flag (`none` = not found). -/
def getItem {V : Type} : List (String × Item V) → String → Option (Item V)
  | [], _ => none
  | (k1, it) :: rest, k => if k1 = k then some it else getItem rest k

/-- Go map assignment `thisCache.items[key] = it`: overwrite the entry when
the key is present, otherwise add the pair. -/
def setItems {V : Type} : List (String × Item V) → String → Item V → List (String × Item V)
  | [], k, it => [(k, it)]
  | (k1, it1) :: rest, k, it =>
    if k1 = k then (k, it) :: rest else (k1, it1) :: setItems rest k it

/-- Go `delete(thisCache.items, key)` (Cache.delete in src/cache.go). -/
def delItems {V : Type} (m : List (String × Item V)) (k : String) : List (String × Item V) :=
  m.filter (fun p => !(p.1 == k))

/-- Cache from src/cache.go.  `stopGc` is the stop channel for the gc
goroutine; `none` stands for a nil (never initialized) Go channel. -/
structure Cache (V : Type) where
  defaultExpiration : Int
  items : List (String × Item V)
  gcInterval : Int
  stopGc : Option Unit

/-- NewCache from src/cache.go: the composite literal sets
`defaultExpiration`, `gcInterval` and an empty `items` map.  The `stopGc`
field is not mentioned, so it keeps the Go zero value of a channel, nil,
modelled as `none`. -/
def NewCache (V : Type) (defaultExpiration gcInterval : Int) : Cache V :=
  { defaultExpiration := defaultExpiration
    items := []
    gcInterval := gcInterval
    stopGc := none }

/-- Item.Expired from src/cache.go: false when `Expiration == 0`, otherwise
`time.Now().UnixNano() > Expiration`. -/
def Item.Expired {V : Type} (thisItem : Item V) (now : Int) : Bool :=
  if thisItem.Expiration = 0 then false
  else decide (thisItem.Expiration < now)

/-- Duration resolution done at the top of both Cache.set and Cache.Set in
src/cache.go: `if dur == DefaultExpiration \x7b dur = thisCache.defaultExpiration \x7d`. -/
def Cache.resolveDur {V : Type} (c : Cache V) (dur : Int) : Int :=
  if dur = DefaultExpiration then c.defaultExpiration else dur

/-- Expiration instant computed by Cache.set and Cache.Set in src/cache.go:
`expir` stays 0 unless the resolved duration is positive, in which case it is
`time.Now().Add(dur).UnixNano()`, i.e. now + dur. -/
def Cache.expirOf {V : Type} (c : Cache V) (dur now : Int) : Int :=
  if 0 < c.resolveDur dur then now + c.resolveDur dur else 0

/-- Cache.set from src/cache.go (unexported, lock-free): unconditional
insert-or-overwrite with the resolved expiration instant. -/
def Cache.set {V : Type} (c : Cache V) (k : String) (v : V) (dur now : Int) : Cache V :=
  { c with items := setItems c.items k ⟨v, c.expirOf dur now⟩ }

/-- Cache.Set from src/cache.go: the exported variant; its body repeats
Cache.set under the write lock. -/
def Cache.Set {V : Type} (c : Cache V) (k : String) (v : V) (dur now : Int) : Cache V :=
  { c with items := setItems c.items k ⟨v, c.expirOf dur now⟩ }

/-- Cache.get from src/cache.go (unexported, lock-free): map lookup followed
by the lazy expiration check. -/
def Cache.get {V : Type} (c : Cache V) (k : String) (now : Int) : Option V × Bool :=
  match getItem c.items k with
  | none => (none, false)
  | some item => if item.Expired now then (none, false) else (some item.Object, true)

/-- Cache.Get from src/cache.go: the exported read.  The resulting cache
state is returned alongside the value to make explicit that the method does
not mutate the map on any path. -/
def Cache.Get {V : Type} (c : Cache V) (k : String) (now : Int) :
    (Option V × Bool) × Cache V :=
  match getItem c.items k with
  | none => ((none, false), c)
  | some item =>
    if item.Expired now then ((none, false), c) else ((some item.Object, true), c)

/-- Errors returned by Cache.Add and Cache.Replace (`fmt.Errorf` calls in
src/cache.go). -/
inductive CacheError where
  | alreadyExists (key : String)
  | notFound
  deriving DecidableEq

/-- Cache.Add from src/cache.go: under one critical section, fail when the
lock-free get finds an unexpired entry, otherwise store via the lock-free
set. -/
def Cache.Add {V : Type} (c : Cache V) (k : String) (v : V) (dur now : Int) :
    Option CacheError × Cache V :=
  if (c.get k now).2 then (some (CacheError.alreadyExists k), c)
  else (none, c.set k v dur now)

/-- Cache.Replace from src/cache.go: under one critical section, fail when
the lock-free get does not find an unexpired entry, otherwise store via the
lock-free set. -/
def Cache.Replace {V : Type} (c : Cache V) (k : String) (v : V) (dur now : Int) :
    Option CacheError × Cache V :=
  if (c.get k now).2 then (none, c.set k v dur now)
  else (some CacheError.notFound, c)

/-- Cache.Delete from src/cache.go: unconditional removal. -/
def Cache.Delete {V : Type} (c : Cache V) (k : String) : Cache V :=
  { c with items := delItems c.items k }

/-- Cache.DeleteExpired from src/cache.go: delete every item with
`Expiration > 0 && now > Expiration`, keeping all others. -/
def Cache.DeleteExpired {V : Type} (c : Cache V) (now : Int) : Cache V :=
  { c with items := c.items.filter fun p => !(decide (0 < p.2.Expiration) && decide (p.2.Expiration < now)) }

/-- Cache.Count from src/cache.go: `len(thisCache.items)`. -/
def Cache.Count {V : Type} (c : Cache V) : Nat := c.items.length

/-- Cache.Flush from src/cache.go: replace the map with an empty one. -/
def Cache.Flush {V : Type} (c : Cache V) : Cache V := { c with items := [] }

/-- Merge loop of Cache.Load from src/cache.go: for each decoded pair, look
the key up in the destination; only when it is found and the existing entry
is not expired is it overwritten with the decoded item. -/
def loadMerge {V : Type} (m : List (String × Item V)) (l : List (String × Item V))
    (now : Int) : List (String × Item V) :=
  match l with
  | [] => m
  | kv :: rest =>
    match getItem m kv.1 with
    | some theItem =>
      if theItem.Expired now = false then loadMerge (setItems m kv.1 kv.2) rest now
      else loadMerge m rest now
    | none => loadMerge m rest now

/-- Cache.Load from src/cache.go after a successful gob decode: the decoded
snapshot map is given as an association list (a decoded Go map, so its keys
are pairwise distinct) and merged into the destination. -/
def Cache.Load {V : Type} (c : Cache V) (decoded : List (String × Item V))
    (now : Int) : Cache V :=
  { c with items := loadMerge c.items decoded now }

/-- Cache.StopGc from src/cache.go performs the channel send
`thisCache.stopGc <- true`.  In Go, a send on a nil channel blocks forever.
This predicate holds exactly when the stop channel is nil, i.e. when the
send performed by StopGc can never complete. -/
def Cache.stopGcSendOnNilChannel {V : Type} (c : Cache V) : Bool := c.stopGc.isNone

/- Helper lemmas about the map operations. -/

theorem getItem_setItems_self {V : Type} (m : List (String × Item V)) (k : String)
    (it : Item V) : getItem (setItems m k it) k = some it := by
  induction m with
  | nil => simp [setItems, getItem]
  | cons p rest ih =>
    obtain ⟨k1, it1⟩ := p
    by_cases h : k1 = k
    · simp [setItems, h, getItem]
    · simp [setItems, h, getItem, ih]

theorem getItem_setItems_ne {V : Type} (m : List (String × Item V)) (k k2 : String)
    (it : Item V) (h : k ≠ k2) : getItem (setItems m k it) k2 = getItem m k2 := by
  induction m with
  | nil => simp [setItems, getItem, h]
  | cons p rest ih =>
    obtain ⟨k1, it1⟩ := p
    by_cases h1 : k1 = k
    · subst h1
      simp [setItems, getItem, h]
    · simp [setItems, h1, getItem, ih]

theorem getItem_eq_none_of_not_mem {V : Type} (m : List (String × Item V)) (k : String)
    (h : k ∉ m.map Prod.fst) : getItem m k = none := by
  induction m with
  | nil => rfl
  | cons p rest ih =>
    obtain ⟨k1, it1⟩ := p
    simp only [List.map_cons, List.mem_cons] at h
    push_neg at h
    have hk : ¬k1 = k := fun he => h.1 he.symm
    simp [getItem, hk, ih h.2]

theorem getItem_filter_none_of_not_mem {V : Type} (m : List (String × Item V))
    (Q : String × Item V → Bool) (k : String) (h : k ∉ m.map Prod.fst) :
    getItem (m.filter Q) k = none := by
  induction m with
  | nil => rfl
  | cons p rest ih =>
    obtain ⟨k1, it1⟩ := p
    simp only [List.map_cons, List.mem_cons] at h
    push_neg at h
    have hk : ¬k1 = k := fun he => h.1 he.symm
    rw [List.filter_cons]
    by_cases hq : Q (k1, it1)
    · simp [hq, getItem, hk, ih h.2]
    · simp [hq, ih h.2]

theorem getItem_filter_of_kept {V : Type} (m : List (String × Item V))
    (Q : String × Item V → Bool) (k : String) (it : Item V)
    (h : getItem m k = some it) (hq : Q (k, it) = true) :
    getItem (m.filter Q) k = some it := by
  induction m with
  | nil => simp [getItem] at h
  | cons p rest ih =>
    obtain ⟨k1, it1⟩ := p
    by_cases hk : k1 = k
    · subst hk
      simp only [getItem, if_pos rfl] at h
      obtain rfl : it1 = it := Option.some.inj h
      rw [List.filter_cons, if_pos hq]
      simp [getItem]
    · simp only [getItem, if_neg hk] at h
      rw [List.filter_cons]
      by_cases hq1 : Q (k1, it1)
      · simp [hq1, getItem, hk, ih h]
      · simp [hq1, ih h]

theorem getItem_filter_of_dropped {V : Type} (m : List (String × Item V))
    (Q : String × Item V → Bool) (k : String) (it : Item V)
    (hnd : (m.map Prod.fst).Nodup)
    (h : getItem m k = some it) (hq : Q (k, it) = false) :
    getItem (m.filter Q) k = none := by
  induction m with
  | nil => simp [getItem] at h
  | cons p rest ih =>
    obtain ⟨k1, it1⟩ := p
    simp only [List.map_cons, List.nodup_cons] at hnd
    by_cases hk : k1 = k
    · subst hk
      simp only [getItem, if_pos rfl] at h
      obtain rfl : it1 = it := Option.some.inj h
      rw [List.filter_cons, if_neg (by simp [hq])]
      exact getItem_filter_none_of_not_mem rest Q k1 hnd.1
    · simp only [getItem, if_neg hk] at h
      rw [List.filter_cons]
      by_cases hq1 : Q (k1, it1)
      · simp [hq1, getItem, hk, ih hnd.2 h]
      · simp [hq1, ih hnd.2 h]

theorem length_filter_add_length_filter_not {α : Type} (l : List α) (Q : α → Bool) :
    (l.filter Q).length + (l.filter (fun a => !(Q a))).length = l.length := by
  induction l with
  | nil => rfl
  | cons a rest ih =>
    cases hq : Q a <;> simp [List.filter_cons, hq] <;> omega

theorem loadMerge_cons_some {V : Type} (m rest : List (String × Item V)) (k1 : String)
    (v1 theItem : Item V) (now : Int) (h1 : getItem m k1 = some theItem) :
    loadMerge m ((k1, v1) :: rest) now =
      if theItem.Expired now = false then loadMerge (setItems m k1 v1) rest now
      else loadMerge m rest now := by
  simp only [loadMerge, h1]

theorem loadMerge_cons_none {V : Type} (m rest : List (String × Item V)) (k1 : String)
    (v1 : Item V) (now : Int) (h1 : getItem m k1 = none) :
    loadMerge m ((k1, v1) :: rest) now = loadMerge m rest now := by
  simp only [loadMerge, h1]

theorem loadMerge_not_mem {V : Type} (l : List (String × Item V)) (m : List (String × Item V))
    (now : Int) (k : String) (h : k ∉ l.map Prod.fst) :
    getItem (loadMerge m l now) k = getItem m k := by
  induction l generalizing m with
  | nil => rfl
  | cons kv rest ih =>
    obtain ⟨k1, v1⟩ := kv
    simp only [List.map_cons, List.mem_cons] at h
    push_neg at h
    cases h1 : getItem m k1 with
    | none => rw [loadMerge_cons_none _ _ _ _ _ h1]; exact ih m h.2
    | some theItem =>
      rw [loadMerge_cons_some _ _ _ _ _ _ h1]
      by_cases he : theItem.Expired now = false
      · rw [if_pos he, ih _ h.2, getItem_setItems_ne _ _ _ _ (fun e => h.1 e.symm)]
      · rw [if_neg he]
        exact ih m h.2

theorem loadMerge_none {V : Type} (l : List (String × Item V)) (m : List (String × Item V))
    (now : Int) (k : String) (h : getItem m k = none) :
    getItem (loadMerge m l now) k = none := by
  induction l generalizing m with
  | nil => exact h
  | cons kv rest ih =>
    obtain ⟨k1, v1⟩ := kv
    cases h1 : getItem m k1 with
    | none => rw [loadMerge_cons_none _ _ _ _ _ h1]; exact ih m h
    | some theItem =>
      have hk : ¬k1 = k := by
        intro hc
        subst hc
        rw [h] at h1
        exact Option.noConfusion h1
      rw [loadMerge_cons_some _ _ _ _ _ _ h1]
      by_cases he : theItem.Expired now = false
      · rw [if_pos he]
        exact ih _ (by rw [getItem_setItems_ne _ _ _ _ hk]; exact h)
      · rw [if_neg he]
        exact ih m h

theorem loadMerge_expired {V : Type} (l : List (String × Item V)) (m : List (String × Item V))
    (now : Int) (k : String) (it : Item V)
    (h : getItem m k = some it) (he : it.Expired now = true) :
    getItem (loadMerge m l now) k = some it := by
  induction l generalizing m with
  | nil => exact h
  | cons kv rest ih =>
    obtain ⟨k1, v1⟩ := kv
    cases h1 : getItem m k1 with
    | none => rw [loadMerge_cons_none _ _ _ _ _ h1]; exact ih m h
    | some theItem =>
      rw [loadMerge_cons_some _ _ _ _ _ _ h1]
      by_cases hk : k1 = k
      · subst hk
        rw [h] at h1
        obtain rfl : it = theItem := Option.some.inj h1
        rw [if_neg (by simp [he])]
        exact ih m h
      · by_cases hee : theItem.Expired now = false
        · rw [if_pos hee]
          exact ih _ (by rw [getItem_setItems_ne _ _ _ _ hk]; exact h)
        · rw [if_neg hee]
          exact ih m h

theorem loadMerge_overwrite {V : Type} (l : List (String × Item V)) (m : List (String × Item V))
    (now : Int) (k : String) (v : Item V) (it : Item V)
    (hnd : (l.map Prod.fst).Nodup) (hmem : (k, v) ∈ l)
    (h : getItem m k = some it) (he : it.Expired now = false) :
    getItem (loadMerge m l now) k = some v := by
  induction l generalizing m it with
  | nil => exact absurd hmem (List.not_mem_nil _)
  | cons kv rest ih =>
    obtain ⟨k1, v1⟩ := kv
    simp only [List.map_cons, List.nodup_cons] at hnd
    rcases List.mem_cons.mp hmem with heq | htail
    · injection heq with hk hv
      subst hk
      subst hv
      rw [loadMerge_cons_some _ _ _ _ _ _ h, if_pos he]
      rw [loadMerge_not_mem rest _ now k hnd.1]
      exact getItem_setItems_self _ _ _
    · have hk1 : ¬k1 = k := by
        intro hc
        subst hc
        exact hnd.1 (List.mem_map.mpr ⟨(k1, v), htail, rfl⟩)
      cases h1 : getItem m k1 with
      | none =>
        rw [loadMerge_cons_none _ _ _ _ _ h1]
        exact ih m it hnd.2 htail h he
      | some theItem =>
        rw [loadMerge_cons_some _ _ _ _ _ _ h1]
        by_cases hee : theItem.Expired now = false
        · rw [if_pos hee]
          exact ih _ it hnd.2 htail (by rw [getItem_setItems_ne _ _ _ _ hk1]; exact h) he
        · rw [if_neg hee]
          exact ih m it hnd.2 htail h he

theorem get_cong_none {V : Type} (c : Cache V) (k : String) (now : Int)
    (h : getItem c.items k = none) : c.get k now = (none, false) := by
  simp only [Cache.get, h]

theorem get_cong_some {V : Type} (c : Cache V) (k : String) (now : Int) (item : Item V)
    (h : getItem c.items k = some item) :
    c.get k now = if item.Expired now then (none, false) else (some item.Object, true) := by
  simp only [Cache.get, h]

theorem Get_cong_none {V : Type} (c : Cache V) (k : String) (now : Int)
    (h : getItem c.items k = none) : c.Get k now = ((none, false), c) := by
  simp only [Cache.Get, h]

theorem Get_cong_some {V : Type} (c : Cache V) (k : String) (now : Int) (item : Item V)
    (h : getItem c.items k = some item) :
    c.Get k now =
      if item.Expired now then ((none, false), c) else ((some item.Object, true), c) := by
  simp only [Cache.Get, h]

theorem get_found_iff {V : Type} (c : Cache V) (k : String) (now : Int) :
    (c.get k now).2 = true ↔
      ∃ it, getItem c.items k = some it ∧ it.Expired now = false := by
  constructor
  · intro hf
    cases h : getItem c.items k with
    | none => rw [get_cong_none c k now h] at hf; exact absurd hf (by simp)
    | some item =>
      rw [get_cong_some c k now item h] at hf
      by_cases he : item.Expired now
      · rw [if_pos he] at hf
        exact absurd hf (by simp)
      · exact ⟨item, rfl, by simpa using he⟩
  · rintro ⟨it, h, he⟩
    rw [get_cong_some c k now it h]
    simp [he]

theorem Expired_mk {V : Type} (v : V) (e now : Int) :
    (Item.mk v e).Expired now = (if e = 0 then false else decide (e < now)) := rfl

theorem Expired_expirOf {V : Type} (c : Cache V) (v : V) (dur now : Int) :
    (Item.mk v (c.expirOf dur now)).Expired now = false := by
  rw [Expired_mk]
  unfold Cache.expirOf
  by_cases hd : 0 < c.resolveDur dur
  · rw [if_pos hd]
    by_cases h0 : now + c.resolveDur dur = 0
    · rw [if_pos h0]
    · rw [if_neg h0]
      simp only [decide_eq_false_iff_not, not_lt]
      omega
  · rw [if_neg hd]
    simp

theorem getItem_set_self {V : Type} (c : Cache V) (k : String) (v : V) (dur now : Int) :
    getItem (c.set k v dur now).items k = some ⟨v, c.expirOf dur now⟩ :=
  getItem_setItems_self _ _ _

theorem Get_after_set {V : Type} (c : Cache V) (k : String) (v : V) (dur now : Int) :
    ((c.set k v dur now).Get k now).1 = (some v, true) := by
  rw [Get_cong_some _ k now ⟨v, c.expirOf dur now⟩ (getItem_set_self c k v dur now)]
  rw [Expired_expirOf]
  simp

theorem getItem_Set_self {V : Type} (c : Cache V) (k : String) (v : V) (dur now : Int) :
    getItem (c.Set k v dur now).items k = some ⟨v, c.expirOf dur now⟩ :=
  getItem_setItems_self _ _ _

theorem expirOf_neg {V : Type} (c : Cache V) (dur now : Int) (h : dur < 0) :
    c.expirOf dur now = 0 := by
  have hne : ¬dur = DefaultExpiration := by unfold DefaultExpiration; omega
  unfold Cache.expirOf Cache.resolveDur
  rw [if_neg hne, if_neg (by omega)]

theorem expirOf_default {V : Type} (c : Cache V) (now : Int) :
    c.expirOf DefaultExpiration now =
      if 0 < c.defaultExpiration then now + c.defaultExpiration else 0 := by
  unfold Cache.expirOf Cache.resolveDur
  rw [if_pos rfl]

theorem expirOf_pos {V : Type} (c : Cache V) (dur now : Int) (h : 0 < dur) :
    c.expirOf dur now = now + dur := by
  have hne : ¬dur = DefaultExpiration := by unfold DefaultExpiration; omega
  unfold Cache.expirOf Cache.resolveDur
  rw [if_neg hne, if_pos h]

theorem expirOf_nonneg {V : Type} (c : Cache V) (dur now : Int) (hnow : 0 ≤ now) :
    0 ≤ c.expirOf dur now := by
  unfold Cache.expirOf
  by_cases h : 0 < c.resolveDur dur
  · rw [if_pos h]; omega
  · rw [if_neg h]

theorem count_helper {V : Type} (now : Int) (l : List (String × Item V)) :
    (l.filter fun p => !(decide (0 < p.2.Expiration) && decide (p.2.Expiration < now))).length +
      (l.filter fun p => decide (0 < p.2.Expiration) && decide (p.2.Expiration < now)).length
      = l.length := by
  have h := length_filter_add_length_filter_not l
    (fun p => decide (0 < p.2.Expiration) && decide (p.2.Expiration < now))
  omega

/-- C2: the claim fails on the code.  NewCache never initializes the stopGc
channel (the composite literal omits it, leaving the zero value, a nil
channel), and StopGc performs a send on that channel; in Go a send on a nil
channel blocks forever, so StopGc called on any store NewCache returns blocks
its caller indefinitely. -/
theorem claim_C2 : (NewCache Nat 5 7).stopGcSendOnNilChannel = true := rfl

/-- C5: Item.Expired returns false when Expiration is 0, and otherwise
returns true exactly when now strictly exceeds Expiration; in particular an
item observed exactly at its deadline is not yet expired.  The function is
pure: it reads only the item and the clock. -/
theorem claim_C5 {V : Type} (it : Item V) (now : Int) :
    (it.Expired now = true ↔ it.Expiration ≠ 0 ∧ it.Expiration < now) ∧
    it.Expired it.Expiration = false := by
  constructor
  · unfold Item.Expired
    by_cases h0 : it.Expiration = 0
    · simp [h0]
    · simp [h0]
  · unfold Item.Expired
    by_cases h0 : it.Expiration = 0
    · simp [h0]
    · simp [h0]

/-- C6: Set always succeeds and stores, for the key, an entry whose
Expiration is 0 under the NoExpiration sentinel, now + defaultTTL under the
DefaultExpiration sentinel with a positive default, and now + ttl for a
positive ttl. -/
theorem claim_C6 {V : Type} (c : Cache V) (k : String) (v : V) (ttl now : Int) :
    (ttl = NoExpiration → getItem (c.Set k v ttl now).items k = some ⟨v, 0⟩) ∧
    (ttl = DefaultExpiration → 0 < c.defaultExpiration →
      getItem (c.Set k v ttl now).items k = some ⟨v, now + c.defaultExpiration⟩) ∧
    (0 < ttl → getItem (c.Set k v ttl now).items k = some ⟨v, now + ttl⟩) := by
  refine ⟨?_, ?_, ?_⟩
  · intro h
    subst h
    rw [getItem_Set_self, expirOf_neg c NoExpiration now (by unfold NoExpiration; omega)]
  · intro h hpos
    subst h
    rw [getItem_Set_self, expirOf_default, if_pos hpos]
  · intro h
    rw [getItem_Set_self, expirOf_pos c ttl now h]

/-- Witness for C6 with a positive ttl on a fresh store. -/
theorem claim_C6_witness :
    getItem ((NewCache Nat 7 1).Set "a" 3 5 100).items "a" = some ⟨3, 105⟩ :=
  (claim_C6 (NewCache Nat 7 1) "a" 3 5 100).2.2 (by decide)

/-- C8: Get returns not-found both when the key is absent and when its entry
is expired at the time of the call, and on every path it returns the cache
state unchanged: the expired entry it observes is not deleted. -/
theorem claim_C8 {V : Type} (c : Cache V) (k : String) (now : Int) :
    ((c.Get k now).2 = c) ∧
    (getItem c.items k = none → (c.Get k now).1 = (none, false)) ∧
    (∀ it, getItem c.items k = some it → it.Expired now = true →
      (c.Get k now).1 = (none, false)) := by
  refine ⟨?_, ?_, ?_⟩
  · cases h : getItem c.items k with
    | none => rw [Get_cong_none c k now h]
    | some item =>
      rw [Get_cong_some c k now item h]
      by_cases he : item.Expired now
      · rw [if_pos he]
      · rw [if_neg he]
  · intro h
    rw [Get_cong_none c k now h]
  · intro it h he
    rw [Get_cong_some c k now it h, if_pos he]

/-- Witness for C8: a present but expired entry is reported not-found. -/
theorem claim_C8_witness :
    ((Cache.mk 0 [("k", ⟨(9 : Nat), 4⟩)] 1 none).Get "k" 10).1 = (none, false) :=
  (claim_C8 (Cache.mk 0 [("k", ⟨(9 : Nat), 4⟩)] 1 none) "k" 10).2.2 ⟨9, 4⟩ rfl rfl

/-- C9: with a nonnegative clock, Set (and the helper set that Add and
Replace store through) records a never-expiring entry (Expiration 0) for
every negative ttl and for the DefaultExpiration sentinel when the default
duration is itself nonpositive, and the stored Expiration is never
negative. -/
theorem claim_C9 {V : Type} (c : Cache V) (k : String) (v : V) (dur now : Int)
    (hnow : 0 ≤ now) :
    (dur < 0 → getItem (c.Set k v dur now).items k = some ⟨v, 0⟩ ∧
      getItem (c.set k v dur now).items k = some ⟨v, 0⟩) ∧
    (dur = DefaultExpiration → c.defaultExpiration ≤ 0 →
      getItem (c.Set k v dur now).items k = some ⟨v, 0⟩) ∧
    (∀ it, getItem (c.Set k v dur now).items k = some it → 0 ≤ it.Expiration) ∧
    0 ≤ c.expirOf dur now := by
  refine ⟨?_, ?_, ?_, expirOf_nonneg c dur now hnow⟩
  · intro h
    constructor
    · rw [getItem_Set_self, expirOf_neg c dur now h]
    · rw [getItem_set_self, expirOf_neg c dur now h]
  · intro h hdef
    subst h
    rw [getItem_Set_self, expirOf_default, if_neg (by omega)]
  · intro it h
    rw [getItem_Set_self] at h
    obtain rfl : (⟨v, c.expirOf dur now⟩ : Item V) = it := Option.some.inj h
    exact expirOf_nonneg c dur now hnow

/-- Witness for C9: a negative ttl stores a never-expiring entry. -/
theorem claim_C9_witness :
    getItem ((NewCache Nat 7 1).Set "a" 2 (-5) 3).items "a" = some ⟨2, 0⟩ :=
  ((claim_C9 (NewCache Nat 7 1) "a" 2 (-5) 3 (by decide)).1 (by decide)).1

/-- C1: over a successfully decoded snapshot map (a Go map, so its keys are
pairwise distinct), Load overwrites a destination entry with the decoded one
exactly when the destination already holds that key and the existing entry
is not expired at load time; a decoded key that is absent from the
destination, or whose destination entry is expired, is not inserted and its
destination entry is unchanged, and keys outside the snapshot are
untouched. -/
theorem claim_C1 {V : Type} (c : Cache V) (decoded : List (String × Item V)) (now : Int)
    (hnd : (decoded.map Prod.fst).Nodup) (k : String) :
    (∀ v it, (k, v) ∈ decoded → getItem c.items k = some it → it.Expired now = false →
      getItem (c.Load decoded now).items k = some v) ∧
    (getItem c.items k = none → getItem (c.Load decoded now).items k = none) ∧
    (∀ it, getItem c.items k = some it → it.Expired now = true →
      getItem (c.Load decoded now).items k = some it) ∧
    (k ∉ decoded.map Prod.fst → getItem (c.Load decoded now).items k = getItem c.items k) :=
  ⟨fun v it hm h he => loadMerge_overwrite decoded c.items now k v it hnd hm h he,
   fun h => loadMerge_none decoded c.items now k h,
   fun it h he => loadMerge_expired decoded c.items now k it h he,
   fun h => loadMerge_not_mem decoded c.items now k h⟩

/-- Witness for C1: a decoded entry overwrites an existing unexpired
destination entry. -/
theorem claim_C1_witness :
    getItem ((Cache.mk 0 [("a", ⟨(1 : Nat), 0⟩)] 1 none).Load [("a", ⟨2, 0⟩)] 0).items "a"
      = some ⟨2, 0⟩ :=
  (claim_C1 (Cache.mk 0 [("a", ⟨(1 : Nat), 0⟩)] 1 none) [("a", ⟨2, 0⟩)] 0 (by decide) "a").1
    ⟨2, 0⟩ ⟨1, 0⟩ (by decide) rfl rfl

/-- C3: Add fails with the already-exists error and leaves the cache (its
whole entry map included) unchanged exactly when an unexpired entry exists
for the key; on an absent or expired key it succeeds, stores exactly as Set
would, and an immediately following Get finds the new value. -/
theorem claim_C3 {V : Type} (c : Cache V) (k : String) (v : V) (dur now : Int) :
    (∀ it, getItem c.items k = some it → it.Expired now = false →
      c.Add k v dur now = (some (CacheError.alreadyExists k), c)) ∧
    ((getItem c.items k = none ∨ ∃ it, getItem c.items k = some it ∧ it.Expired now = true) →
      (c.Add k v dur now).1 = none ∧
      (c.Add k v dur now).2 = c.Set k v dur now ∧
      ((c.Add k v dur now).2.Get k now).1 = (some v, true)) := by
  constructor
  · intro it h he
    have hf : (c.get k now).2 = true := (get_found_iff c k now).mpr ⟨it, h, he⟩
    unfold Cache.Add
    rw [if_pos hf]
  · intro hcase
    have hf : ¬(c.get k now).2 = true := by
      intro hc
      obtain ⟨it, h, he⟩ := (get_found_iff c k now).mp hc
      rcases hcase with hn | ⟨it2, h2, he2⟩
      · rw [h] at hn
        exact Option.noConfusion hn
      · rw [h] at h2
        obtain rfl : it = it2 := Option.some.inj h2
        rw [he] at he2
        exact Bool.noConfusion he2
    have hAdd : c.Add k v dur now = (none, c.set k v dur now) := by
      unfold Cache.Add
      rw [if_neg hf]
    exact ⟨by rw [hAdd], by rw [hAdd]; rfl, by rw [hAdd]; exact Get_after_set c k v dur now⟩

/-- Witness for C3: Add on an absent key succeeds and the value is
immediately retrievable. -/
theorem claim_C3_witness :
    ((NewCache Nat 0 1).Add "a" 5 0 0).1 = none ∧
    ((NewCache Nat 0 1).Add "a" 5 0 0).2 = (NewCache Nat 0 1).Set "a" 5 0 0 ∧
    (((NewCache Nat 0 1).Add "a" 5 0 0).2.Get "a" 0).1 = (some 5, true) :=
  (claim_C3 (NewCache Nat 0 1) "a" 5 0 0).2 (Or.inl rfl)

/-- C4: Replace fails with the not-found error and leaves the cache
unchanged exactly when the key is absent or its entry is expired; on an
existing unexpired key it succeeds, overwrites exactly as Set would, and the
new value is immediately retrievable by Get. -/
theorem claim_C4 {V : Type} (c : Cache V) (k : String) (v : V) (dur now : Int) :
    ((getItem c.items k = none ∨ ∃ it, getItem c.items k = some it ∧ it.Expired now = true) →
      c.Replace k v dur now = (some CacheError.notFound, c)) ∧
    (∀ it, getItem c.items k = some it → it.Expired now = false →
      (c.Replace k v dur now).1 = none ∧
      (c.Replace k v dur now).2 = c.Set k v dur now ∧
      ((c.Replace k v dur now).2.Get k now).1 = (some v, true)) := by
  constructor
  · intro hcase
    have hf : ¬(c.get k now).2 = true := by
      intro hc
      obtain ⟨it, h, he⟩ := (get_found_iff c k now).mp hc
      rcases hcase with hn | ⟨it2, h2, he2⟩
      · rw [h] at hn
        exact Option.noConfusion hn
      · rw [h] at h2
        obtain rfl : it = it2 := Option.some.inj h2
        rw [he] at he2
        exact Bool.noConfusion he2
    unfold Cache.Replace
    rw [if_neg hf]
  · intro it h he
    have hf : (c.get k now).2 = true := (get_found_iff c k now).mpr ⟨it, h, he⟩
    have hRep : c.Replace k v dur now = (none, c.set k v dur now) := by
      unfold Cache.Replace
      rw [if_pos hf]
    exact ⟨by rw [hRep], by rw [hRep]; rfl, by rw [hRep]; exact Get_after_set c k v dur now⟩

/-- Witness for C4: Replace on an existing unexpired key succeeds and the
new value is immediately retrievable. -/
theorem claim_C4_witness :
    ((Cache.mk 0 [("a", ⟨(1 : Nat), 0⟩)] 1 none).Replace "a" 5 0 0).1 = none ∧
    ((Cache.mk 0 [("a", ⟨(1 : Nat), 0⟩)] 1 none).Replace "a" 5 0 0).2
      = (Cache.mk 0 [("a", ⟨(1 : Nat), 0⟩)] 1 none).Set "a" 5 0 0 ∧
    (((Cache.mk 0 [("a", ⟨(1 : Nat), 0⟩)] 1 none).Replace "a" 5 0 0).2.Get "a" 0).1
      = (some 5, true) :=
  (claim_C4 (Cache.mk 0 [("a", ⟨(1 : Nat), 0⟩)] 1 none) "a" 5 0 0).2 ⟨1, 0⟩ rfl rfl

/-- C7: DeleteExpired removes exactly the entries whose Expiration is
positive and strictly in the past, keeps every other entry unchanged
(never-expiring ones included), and the count afterwards plus the number of
removed entries equals the count before. -/
theorem claim_C7 {V : Type} (c : Cache V) (now : Int)
    (hnd : (c.items.map Prod.fst).Nodup) :
    (∀ k it, getItem c.items k = some it → 0 < it.Expiration → it.Expiration < now →
      getItem (c.DeleteExpired now).items k = none) ∧
    (∀ k it, getItem c.items k = some it → ¬(0 < it.Expiration ∧ it.Expiration < now) →
      getItem (c.DeleteExpired now).items k = some it) ∧
    (c.DeleteExpired now).Count +
      (c.items.filter fun p => decide (0 < p.2.Expiration) && decide (p.2.Expiration < now)).length
      = c.Count := by
  refine ⟨?_, ?_, count_helper now c.items⟩
  · intro k it h h1 h2
    exact getItem_filter_of_dropped c.items
      (fun p => !(decide (0 < p.2.Expiration) && decide (p.2.Expiration < now)))
      k it hnd h (by simp [h1, h2])
  · intro k it h hcond
    refine getItem_filter_of_kept c.items
      (fun p => !(decide (0 < p.2.Expiration) && decide (p.2.Expiration < now)))
      k it h ?_
    by_cases h1 : 0 < it.Expiration
    · have h2 : ¬it.Expiration < now := fun hh => hcond ⟨h1, hh⟩
      simp [h1, h2]
    · simp [h1]

/-- Witness for C7: an entry with a positive past deadline is removed. -/
theorem claim_C7_witness :
    getItem ((Cache.mk 0 [("a", ⟨(1 : Nat), 5⟩), ("b", ⟨2, 0⟩)] 1 none).DeleteExpired 10).items "a"
      = none :=
  (claim_C7 (Cache.mk 0 [("a", ⟨(1 : Nat), 5⟩), ("b", ⟨2, 0⟩)] 1 none) 10 (by decide)).1
    "a" ⟨1, 5⟩ rfl (by decide) (by decide)

/-- C10: a successful Load replaces an unexpired destination entry with an
already-expired decoded one: before the Load, Get on key a finds the stored
value; after loading a snapshot whose entry for key a carries a positive
Expiration already in the past, the same Get returns not-found. -/
theorem claim_C10 :
    ((Cache.Get (Cache.mk 0 [("a", ⟨(1 : Nat), 0⟩)] 1 none) "a" 10).1 = (some 1, true)) ∧
    ((Cache.Get ((Cache.mk 0 [("a", ⟨(1 : Nat), 0⟩)] 1 none).Load [("a", ⟨2, 5⟩)] 10) "a" 10).1
      = (none, false)) :=
  ⟨rfl, rfl⟩
